import Mathlib

/-!  Verification of the SDS local-history engine (`@waku/sds`):
the in-memory message history `MemLocalHistory`
(`src/message_channel/mem_local_history.ts`), the record codec
`MessageSerializer` (`src/message_channel/storage/message_serializer.ts`)
and the key-value persistence layer `PersistentStorage`
(`src/message_channel/storage/browser.ts`).

Bytes (`Uint8Array`) are modelled as `List Nat` with values below 256,
strings as Lean `String`, the arbitrary-precision `bigint` logical clock
as `Nat`, JavaScript `undefined` for optional fields as `Option`, and a
thrown exception as an `Except`/`Option` failure.  -/

namespace Sds

/-! ### Byte/hex and decimal primitives

Models of the external helpers the source calls: `bytesToHex` /
`hexToBytes` from `@noble/hashes/utils` (lowercase hex, two digits per
byte, `hexToBytes` throws on odd length or a non-hex character, here
`none`), `BigInt.prototype.toString` (decimal printing) and the `BigInt`
constructor applied to the decimal strings the serializer produces.  -/

def hexDigitChar (n : Nat) : Char :=
  if n < 10 then Char.ofNat (48 + n) else Char.ofNat (87 + n)

def byteToHexChars (b : Nat) : List Char :=
  [hexDigitChar (b / 16), hexDigitChar (b % 16)]

def bytesToHex (bs : List Nat) : String :=
  ⟨(bs.map byteToHexChars).flatten⟩

def hexCharVal (c : Char) : Option Nat :=
  if 48 ≤ c.toNat ∧ c.toNat ≤ 57 then some (c.toNat - 48)
  else if 97 ≤ c.toNat ∧ c.toNat ≤ 102 then some (c.toNat - 87)
  else if 65 ≤ c.toNat ∧ c.toNat ≤ 70 then some (c.toNat - 55)
  else none

def hexToBytesAux : List Char → Option (List Nat)
  | [] => some []
  | [_] => none
  | c1 :: c2 :: rest =>
    match hexCharVal c1, hexCharVal c2, hexToBytesAux rest with
    | some h, some l, some bs => some ((16 * h + l) :: bs)
    | _, _, _ => none

def hexToBytes (s : String) : Option (List Nat) :=
  hexToBytesAux s.data

def decDigitChar (n : Nat) : Char := Char.ofNat (48 + n)

/-- Decimal printing of a natural number, fuel-indexed so that it is
structurally recursive; `natToDec` supplies enough fuel.  -/
def natToDecGo : Nat → Nat → List Char → List Char
  | 0, _, acc => acc
  | fuel + 1, n, acc =>
    if n < 10 then decDigitChar n :: acc
    else natToDecGo fuel (n / 10) (decDigitChar (n % 10) :: acc)

def natToDec (n : Nat) : String := ⟨natToDecGo (n + 1) n []⟩

def decCharVal (c : Char) : Option Nat :=
  if 48 ≤ c.toNat ∧ c.toNat ≤ 57 then some (c.toNat - 48) else none

def parseDecAux : List Char → Nat → Option Nat
  | [], acc => some acc
  | c :: cs, acc =>
    match decCharVal c with
    | some d => parseDecAux cs (10 * acc + d)
    | none => none

/-- Decimal parsing; models the `BigInt` constructor on the nonempty
all-digit strings that serialization produces (`BigInt` accepts further
syntaxes that serialized records never contain).  -/
def parseDec (s : String) : Option Nat :=
  if s.data = [] then none else parseDecAux s.data 0

/-! ### Message data model

Modelled from the spec: the classes `HistoryEntry` and `ContentMessage` of
`message.ts` are not under `src/` (only their callers are); spec section 3
gives their fields.  `lamportTimestamp` and `content` are optional here so
that the control/ephemeral variants, which lack them and which
`MemLocalHistory` must reject, are representable - spec section 4.1.  -/

structure HistoryEntry where
  messageId : String
  retrievalHint : Option (List Nat)
deriving DecidableEq, Repr

structure ContentMessage where
  messageId : String
  channelId : String
  senderId : String
  causalHistory : List HistoryEntry
  lamportTimestamp : Option Nat
  bloomFilter : Option (List Nat)
  content : Option (List Nat)
  retrievalHint : Option (List Nat)
deriving DecidableEq, Repr

/-- Modelled from the spec: the type guard `isContentMessage` of
`message.ts` is not under `src/`; spec section 4.1: a message is admissible
exactly when `lamportTimestamp` and `content` are both present.  -/
def isContentMessage (m : ContentMessage) : Bool :=
  m.lamportTimestamp.isSome && m.content.isSome

/-- JavaScript template/`toString` rendering of the logical clock: a
present `bigint` prints in decimal; an absent one interpolates as the
string "undefined" (never reached for validated content messages).  -/
def tsToString : Option Nat → String
  | some t => natToDec t
  | none => "undefined"

/-- Modelled from the spec: `ContentMessage.valueOf` of `message.ts` is not
under `src/`; the caller comment in `mem_local_history.ts` line 87 and spec
section 9 describe it as the concatenated string `timestamp_messageId`.  -/
def valueOf (m : ContentMessage) : String :=
  tsToString m.lamportTimestamp ++ "_" ++ m.messageId

/-! ### MessageSerializer (`message_serializer.ts`)  -/

structure StoredCausalEntry where
  messageId : String
  retrievalHint : Option String
deriving DecidableEq, Repr

structure StoredContentMessage where
  messageId : String
  channelId : String
  senderId : String
  lamportTimestamp : String
  causalHistory : List StoredCausalEntry
  bloomFilter : Option String
  content : String
  retrievalHint : Option String
deriving DecidableEq, Repr

namespace MessageSerializer

/-- `toHex` (`message_serializer.ts` lines 80-87): undefined when the data
is absent or has length 0, otherwise the hex encoding.  -/
def toHex : Option (List Nat) → Option String
  | none => none
  | some d => if d.length = 0 then none else some (bytesToHex d)

/-- `fromHex` (`message_serializer.ts` lines 89-94): a falsy value
(absent, or the empty string) yields undefined without throwing; otherwise
`hexToBytes`, whose throw is the outer `none`.  -/
def fromHex : Option String → Option (Option (List Nat))
  | none => some none
  | some s =>
    if s = "" then some none
    else
      match hexToBytes s with
      | some bs => some (some bs)
      | none => none

/-- `serializeCausalEntry` (lines 62-69): the hint is hex-encoded when the
source value is truthy.  A present `Uint8Array` is truthy even at length 0,
so a present empty hint encodes as the empty string.  -/
def serializeCausalEntry (e : HistoryEntry) : StoredCausalEntry :=
  { messageId := e.messageId
    retrievalHint := e.retrievalHint.map bytesToHex }

/-- `deserializeCausalEntry` (lines 71-78): a falsy stored hint (absent or
the empty string) yields an absent hint; otherwise `hexToBytes`, whose
throw aborts the surrounding message deserialization (`none`).  -/
def deserializeCausalEntry (e : StoredCausalEntry) : Option HistoryEntry :=
  match e.retrievalHint with
  | none => some { messageId := e.messageId, retrievalHint := none }
  | some s =>
    if s = "" then some { messageId := e.messageId, retrievalHint := none }
    else
      match hexToBytes s with
      | some bs => some { messageId := e.messageId, retrievalHint := some bs }
      | none => none

/-- The `record.causalHistory.map(deserializeCausalEntry)` call inside the
`try` block of `deserializeContentMessage`: a throw in any entry aborts the
whole message.  -/
def deserializeCausalList : List StoredCausalEntry → Option (List HistoryEntry)
  | [] => some []
  | e :: rest =>
    match deserializeCausalEntry e, deserializeCausalList rest with
    | some he, some hes => some (he :: hes)
    | _, _ => none

/-- `serializeContentMessage` (lines 22-37).  `new Uint8Array(content)` of
an absent content is the empty array, hence the `getD []`; the timestamp of
a validated message is always present (the source field type is `bigint`).  -/
def serializeContentMessage (m : ContentMessage) : StoredContentMessage :=
  { messageId := m.messageId
    channelId := m.channelId
    senderId := m.senderId
    lamportTimestamp := tsToString m.lamportTimestamp
    causalHistory := m.causalHistory.map serializeCausalEntry
    bloomFilter := toHex m.bloomFilter
    content := bytesToHex (m.content.getD [])
    retrievalHint := toHex m.retrievalHint }

/-- `deserializeContentMessage` (lines 39-60): any decoding failure inside
the `try` block makes the whole record yield undefined.  -/
def deserializeContentMessage (r : StoredContentMessage) : Option ContentMessage :=
  match hexToBytes r.content with
  | none => none
  | some content =>
    match deserializeCausalList r.causalHistory with
    | none => none
    | some ch =>
      match parseDec r.lamportTimestamp with
      | none => none
      | some ts =>
        match fromHex r.bloomFilter with
        | none => none
        | some bloom =>
          match fromHex r.retrievalHint with
          | none => none
          | some hint =>
            some { messageId := r.messageId
                   channelId := r.channelId
                   senderId := r.senderId
                   causalHistory := ch
                   lamportTimestamp := some ts
                   bloomFilter := bloom
                   content := some content
                   retrievalHint := hint }

end MessageSerializer

/-! ### MemLocalHistory (`mem_local_history.ts`)

The `Map` index is modelled as an association list with the `Map`
operations `set`, `delete`, `has` and `get`; `valueOf`-key comparison via
`localeCompare` is modelled as code-point lexicographic order (on the
ASCII decimal-digit and identifier strings `valueOf` produces, the default
Unicode collation and code-point order agree), and the stable
`Array.prototype.sort` as a stable insertion sort, which computes the same
list as any stable sort for this total preorder.  -/

def DEFAULT_MAX_LENGTH : Nat := 10000

def mapSet : List (String × ContentMessage) → String → ContentMessage →
    List (String × ContentMessage)
  | [], k, v => [(k, v)]
  | (k1, v1) :: rest, k, v =>
    if k1 = k then (k, v) :: rest else (k1, v1) :: mapSet rest k v

def mapDelete : List (String × ContentMessage) → String →
    List (String × ContentMessage)
  | [], _ => []
  | (k1, v1) :: rest, k =>
    if k1 = k then rest else (k1, v1) :: mapDelete rest k

def mapGet : List (String × ContentMessage) → String → Option ContentMessage
  | [], _ => none
  | (k1, v1) :: rest, k => if k1 = k then some v1 else mapGet rest k

def mapHas : List (String × ContentMessage) → String → Bool
  | [], _ => false
  | (k1, _) :: rest, k => k1 = k || mapHas rest k

/-- Code-point lexicographic strict order on character lists.  -/
def charListLt : List Char → List Char → Bool
  | [], [] => false
  | [], _ :: _ => true
  | _ :: _, [] => false
  | a :: as, b :: bs =>
    if a.toNat < b.toNat then true
    else if b.toNat < a.toNat then false
    else charListLt as bs

def strLt (a b : String) : Bool := charListLt a.data b.data

/-- The sort comparator of `addMessages` line 88:
`(a, b) => a.valueOf().localeCompare(b.valueOf())`.  -/
def valueOfLt (a b : ContentMessage) : Bool := strLt (valueOf a) (valueOf b)

/-- Stable insertion: a new element goes after every strictly smaller
element and before equal ones, as a stable sort requires.  -/
def insertByValueOf (x : ContentMessage) : List ContentMessage → List ContentMessage
  | [] => [x]
  | y :: ys => if valueOfLt y x then y :: insertByValueOf x ys else x :: y :: ys

/-- Stable sort by the `valueOf` key; models `combinedItems.sort(...)`.  -/
def sortByValueOf : List ContentMessage → List ContentMessage
  | [] => []
  | x :: xs => insertByValueOf x (sortByValueOf xs)

/-- lodash `_.uniqBy(combinedItems, "messageId")` (line 91): keep the first
occurrence of each `messageId`, preserving order.  -/
def uniqByMessageId : List ContentMessage → List String → List ContentMessage
  | [], _ => []
  | m :: rest, seen =>
    if m.messageId ∈ seen then uniqByMessageId rest seen
    else m :: uniqByMessageId rest (m.messageId :: seen)

structure MemLocalHistory where
  items : List ContentMessage
  messageIndex : List (String × ContentMessage)
  maxSize : Nat
deriving DecidableEq, Repr

namespace MemLocalHistory

def size (st : MemLocalHistory) : Nat := st.items.length

/-- `rebuildIndex` (lines 127-132): clear, then `set` every item.  -/
def rebuildIndex (items : List ContentMessage) : List (String × ContentMessage) :=
  items.foldl (fun ix m => mapSet ix m.messageId m) []

/-- The error thrown by `validateMessage` (lines 134-140).  -/
def validationErrorMessage : String :=
  "Message must have lamportTimestamp and content defined, sync and ephemeral messages cannot be stored"

/-- The mutation block of `addMessages` (lines 83-102): merge, stable-sort
by the `valueOf` key, deduplicate by `messageId`, rebuild the index, then
splice the leading excess off when `maxSize` is exceeded.  -/
def mergeItems (st : MemLocalHistory) (messages : List ContentMessage) : MemLocalHistory :=
  let combinedItems := st.items ++ messages
  let deduped := uniqByMessageId (sortByValueOf combinedItems) []
  let index := rebuildIndex deduped
  if deduped.length > st.maxSize then
    let numItemsToRemove := deduped.length - st.maxSize
    { st with
      items := deduped.drop numItemsToRemove
      messageIndex :=
        (deduped.take numItemsToRemove).foldl (fun ix it => mapDelete ix it.messageId) index }
  else
    { st with items := deduped, messageIndex := index }

/-- `addMessages` (lines 78-105) without the persistence call: every input
message is validated before anything is mutated; a failure throws and
leaves the state untouched.  -/
def addMessages (st : MemLocalHistory) (messages : List ContentMessage) :
    Except String MemLocalHistory :=
  if messages.all isContentMessage then .ok (mergeItems st messages)
  else .error validationErrorMessage

def hasMessage (st : MemLocalHistory) (messageId : String) : Bool :=
  mapHas st.messageIndex messageId

/-- `getRecentMessages` (lines 111-113) is `items.slice(-count)`.  For
`count = 0` the JavaScript argument `-0` normalizes to `0`, selecting the
whole array; for positive `count` the start index is
`max(length - count, 0)`, which truncated `Nat` subtraction gives.  -/
def getRecentMessages (st : MemLocalHistory) (count : Nat) : List ContentMessage :=
  if count = 0 then st.items else st.items.drop (st.items.length - count)

/-- `getAllMessages` (lines 115-117) returns a fresh copy of `items`; in
the pure model the copy is the list itself.  -/
def getAllMessages (st : MemLocalHistory) : List ContentMessage := st.items

def getMessage (st : MemLocalHistory) (messageId : String) : Option ContentMessage :=
  mapGet st.messageIndex messageId

/-- `findMissingDependencies` (lines 123-125); a pure query.  -/
def findMissingDependencies (st : MemLocalHistory) (entries : List HistoryEntry) :
    List HistoryEntry :=
  entries.filter (fun entry => !(mapHas st.messageIndex entry.messageId))

/-- The constructor state before `load()` runs (lines 57-71).  -/
def emptyHistory (maxSize : Nat) : MemLocalHistory :=
  { items := [], messageIndex := [], maxSize := maxSize }

/-- `load` (lines 146-152): when the storage yields a nonempty list it
becomes `items` verbatim and only the index is rebuilt; otherwise the
state is left as it is.  -/
def loadIntoHistory (st : MemLocalHistory) (messages : List ContentMessage) :
    MemLocalHistory :=
  if messages.length > 0 then
    { st with items := messages, messageIndex := rebuildIndex messages }
  else st

/-- Construction from whatever the storage `load()` produced.  -/
def mkMemLocalHistory (maxSize : Nat) (loaded : List ContentMessage) : MemLocalHistory :=
  loadIntoHistory (emptyHistory maxSize) loaded

end MemLocalHistory

/-! ### PersistentStorage (`storage/browser.ts`)

The key-value backend (`HistoryStorage`: `getItem` / `setItem` /
`removeItem`, unique keys) is an association list of strings.
`JSON.parse` plus the requirement that the parsed value be an array of
records is an abstract parameter `jparse : String → Option (List
StoredContentMessage)`: a parse throw and a non-array result (which makes
the subsequent `.map` call throw inside the same `try` block) both reach
the `catch`, which removes the stored value.  `JSON.stringify` is likewise
an abstract parameter of `save`.  -/

abbrev Store := List (String × String)

def storeGet : Store → String → Option String
  | [], _ => none
  | (k1, v1) :: rest, k => if k1 = k then some v1 else storeGet rest k

def storeRemove : Store → String → Store
  | [], _ => []
  | (k1, v1) :: rest, k =>
    if k1 = k then storeRemove rest k else (k1, v1) :: storeRemove rest k

def storeSet (store : Store) (k v : String) : Store :=
  (k, v) :: storeRemove store k

namespace PersistentStorage

/-- `PersistentStorage.load` (lines 131-147): missing or empty raw value
loads as the empty list; a parse failure removes the stored value and
loads as the empty list; a parsed record list is deserialized per record,
dropping the records that fail.  Returns the loaded messages and the
storage state after the call.  -/
def load (jparse : String → Option (List StoredContentMessage))
    (store : Store) (key : String) : List ContentMessage × Store :=
  match storeGet store key with
  | none => ([], store)
  | some raw =>
    if raw = "" then ([], store)
    else
      match jparse raw with
      | none => ([], storeRemove store key)
      | some stored => (stored.filterMap MessageSerializer.deserializeContentMessage, store)

/-- `PersistentStorage.save` (lines 120-129): serialize every message and
store the encoded payload under the channel key.  -/
def save (stringify : List StoredContentMessage → String)
    (store : Store) (key : String) (messages : List ContentMessage) : Store :=
  storeSet store key (stringify (messages.map MessageSerializer.serializeContentMessage))

end PersistentStorage

/-- The `MemLocalHistory` constructor over a persistent storage backend:
`load()` runs during construction; the result is the constructed history
and the storage state after the load.  -/
def mkWithStorage (jparse : String → Option (List StoredContentMessage))
    (maxSize : Nat) (store : Store) (key : String) : MemLocalHistory × Store :=
  let loaded := PersistentStorage.load jparse store key
  (MemLocalHistory.mkMemLocalHistory maxSize loaded.1, loaded.2)

/-- `addMessages` together with its persistence side effect (`this.save()`,
line 104): the validation loop precedes every mutation in the source, so a
validation throw returns with the history and the storage exactly as they
were; a successful call merges and then rewrites the whole channel value.  -/
def addMessagesWithStorage (stringify : List StoredContentMessage → String)
    (st : MemLocalHistory) (store : Store) (key : String)
    (messages : List ContentMessage) :
    Except String Unit × MemLocalHistory × Store :=
  if messages.all isContentMessage then
    let merged := st.mergeItems messages
    (.ok (), merged, PersistentStorage.save stringify store key merged.items)
  else
    (.error MemLocalHistory.validationErrorMessage, st, store)

/-! ### Concrete values used by witnesses and counterexamples  -/

/-- A minimal valid content message with the given id and timestamp.  -/
def sampleMsg (id : String) (ts : Nat) : ContentMessage :=
  { messageId := id, channelId := "c", senderId := "s", causalHistory := []
    lamportTimestamp := some ts, bloomFilter := none, content := some [1]
    retrievalHint := none }

def msgTs9 : ContentMessage := sampleMsg "a" 9
def msgTs10 : ContentMessage := sampleMsg "b" 10

def c4exMsg : ContentMessage := { sampleMsg "m" 1 with bloomFilter := some [] }

def c4wMsg : ContentMessage :=
  { messageId := "w", channelId := "ch", senderId := "snd"
    causalHistory := [⟨"p", none⟩, ⟨"q", some [1, 255]⟩]
    lamportTimestamp := some 12345, bloomFilter := some [171, 0]
    content := some [], retrievalHint := some [7] }

def c5exMsg : ContentMessage :=
  { sampleMsg "m5" 2 with causalHistory := [⟨"e", some []⟩] }

def c6invalidMsg : ContentMessage := { sampleMsg "bad" 1 with content := none }
def c6validMsg : ContentMessage := sampleMsg "good" 1

def c7key : String := "waku:sds:history:channel-1"
def c7store : Store := [(c7key, "\x7b invalid json \x7d")]

def c8history : MemLocalHistory := MemLocalHistory.mkMemLocalHistory 10 [sampleMsg "r" 3]

def c9history : MemLocalHistory := MemLocalHistory.mkMemLocalHistory 10 [sampleMsg "m2" 2]
def c9entries : List HistoryEntry := [⟨"m1", none⟩, ⟨"m2", none⟩]

def c10loaded : List ContentMessage :=
  [sampleMsg "z" 5, sampleMsg "y" 3, { sampleMsg "y" 4 with channelId := "c2" }]

def c3msgs : List ContentMessage := [sampleMsg "x1" 1, sampleMsg "x2" 2]
def c3state : MemLocalHistory := (MemLocalHistory.emptyHistory 1).mergeItems c3msgs

def c6msgs : List ContentMessage := [c6validMsg, c6invalidMsg]
def c6stringify : List StoredContentMessage → String := fun _ => "x"
def c6store : Store := []

def c7jparse : String → Option (List StoredContentMessage) := fun _ => none

def c7emptyStore : Store := [(c7key, "")]

/-- Well-formedness of an optional binary field: when present it is
nonempty and holds bytes.  The amended round-trip claim is restricted to
such fields.  -/
def HintOk (o : Option (List Nat)) : Prop :=
  ∀ bs, o = some bs → bs ≠ [] ∧ ∀ b ∈ bs, b < 256

/-! ### Helper lemmas: hex and decimal round trips  -/

theorem hintOk_none : HintOk none := fun _ h => nomatch h

theorem hintOk_some {bs : List Nat} (h1 : bs ≠ []) (h2 : ∀ b ∈ bs, b < 256) :
    HintOk (some bs) := by
  intro c hc
  cases hc
  exact ⟨h1, h2⟩

theorem hexCharVal_hexDigitChar {n : Nat} (h : n < 16) :
    hexCharVal (hexDigitChar n) = some n := by
  interval_cases n <;> decide

theorem hexToBytesAux_flatten :
    ∀ bs : List Nat, (∀ b ∈ bs, b < 256) →
      hexToBytesAux ((bs.map byteToHexChars).flatten) = some bs := by
  intro bs h
  induction bs with
  | nil => rfl
  | cons b rest ih =>
    have hb : b < 256 := h b (by simp)
    have h1 : b / 16 < 16 := by omega
    have h2 : b % 16 < 16 := by omega
    have hrest := ih (fun x hx => h x (by simp [hx]))
    simp only [List.map_cons, List.flatten_cons, byteToHexChars, List.cons_append,
      List.nil_append]
    rw [hexToBytesAux, hexCharVal_hexDigitChar h1, hexCharVal_hexDigitChar h2, hrest]
    have hdm : 16 * (b / 16) + b % 16 = b := by omega
    show some ((16 * (b / 16) + b % 16) :: rest) = some (b :: rest)
    rw [hdm]

theorem hexToBytes_bytesToHex {bs : List Nat} (h : ∀ b ∈ bs, b < 256) :
    hexToBytes (bytesToHex bs) = some bs :=
  hexToBytesAux_flatten bs h

theorem bytesToHex_ne_empty {bs : List Nat} (h : bs ≠ []) : bytesToHex bs ≠ "" := by
  cases bs with
  | nil => exact absurd rfl h
  | cons b rest =>
    intro hcontra
    have hdata : ((b :: rest).map byteToHexChars).flatten = [] :=
      congrArg String.data hcontra
    simp [byteToHexChars] at hdata

theorem decCharVal_decDigitChar {d : Nat} (h : d < 10) :
    decCharVal (decDigitChar d) = some d := by
  interval_cases d <;> decide

theorem natToDecGo_append :
    ∀ fuel n acc, natToDecGo fuel n acc = natToDecGo fuel n [] ++ acc := by
  intro fuel
  induction fuel with
  | zero => intro n acc; rfl
  | succ fuel ih =>
    intro n acc
    by_cases h : n < 10
    · simp [natToDecGo, h]
    · simp only [natToDecGo, if_neg h]
      rw [ih (n / 10) (decDigitChar (n % 10) :: acc), ih (n / 10) [decDigitChar (n % 10)]]
      simp

theorem natToDecGo_ne_nil : ∀ fuel n acc, natToDecGo (fuel + 1) n acc ≠ [] := by
  intro fuel
  induction fuel with
  | zero =>
    intro n acc
    by_cases h : n < 10 <;> simp [natToDecGo, h]
  | succ fuel ih =>
    intro n acc
    by_cases h : n < 10
    · simp [natToDecGo, h]
    · simp only [natToDecGo, if_neg h]
      exact ih (n / 10) _

theorem parseDecAux_append :
    ∀ xs ys a, parseDecAux (xs ++ ys) a =
      match parseDecAux xs a with
      | some a2 => parseDecAux ys a2
      | none => none := by
  intro xs
  induction xs with
  | nil => intro ys a; rfl
  | cons c cs ih =>
    intro ys a
    simp only [List.cons_append, parseDecAux]
    cases hc : decCharVal c with
    | some d => exact ih ys (10 * a + d)
    | none => rfl

theorem parseDecAux_natToDecGo :
    ∀ fuel n a, n < fuel →
      ∃ k, 1 ≤ k ∧ parseDecAux (natToDecGo fuel n []) a = some (a * 10 ^ k + n) := by
  intro fuel
  induction fuel with
  | zero => intro n a h; omega
  | succ fuel ih =>
    intro n a h
    by_cases hn : n < 10
    · refine ⟨1, le_refl 1, ?_⟩
      simp only [natToDecGo, if_pos hn, parseDecAux, decCharVal_decDigitChar hn]
      have : 10 * a + n = a * 10 ^ 1 + n := by ring
      rw [this]
    · have hdiv : n / 10 < fuel := by
        have : n / 10 < n := Nat.div_lt_self (by omega) (by omega)
        omega
      obtain ⟨k, hk, hp⟩ := ih (n / 10) a hdiv
      refine ⟨k + 1, by omega, ?_⟩
      simp only [natToDecGo, if_neg hn]
      rw [natToDecGo_append fuel (n / 10) [decDigitChar (n % 10)]]
      rw [parseDecAux_append, hp]
      have hm : n % 10 < 10 := by omega
      simp only [parseDecAux, decCharVal_decDigitChar hm]
      have harith : 10 * (a * 10 ^ k + n / 10) + n % 10 = a * 10 ^ (k + 1) + n := by
        have hdm : 10 * (n / 10) + n % 10 = n := Nat.div_add_mod n 10
        calc 10 * (a * 10 ^ k + n / 10) + n % 10
            = a * (10 ^ k * 10) + (10 * (n / 10) + n % 10) := by ring
          _ = a * 10 ^ (k + 1) + n := by rw [hdm, pow_succ]
      rw [harith]

theorem parseDec_natToDec (n : Nat) : parseDec (natToDec n) = some n := by
  have hne : natToDecGo (n + 1) n [] ≠ [] := natToDecGo_ne_nil n n []
  unfold parseDec natToDec
  rw [if_neg hne]
  obtain ⟨k, hk, hp⟩ := parseDecAux_natToDecGo (n + 1) n 0 (by omega)
  rw [hp]
  simp

/-! ### Helper lemmas: serializer  -/

theorem fromHex_toHex {o : Option (List Nat)} (h : HintOk o) :
    MessageSerializer.fromHex (MessageSerializer.toHex o) = some o := by
  cases o with
  | none => rfl
  | some bs =>
    obtain ⟨h1, h2⟩ := h bs rfl
    simp only [MessageSerializer.toHex]
    rw [if_neg (by simpa using h1)]
    simp only [MessageSerializer.fromHex]
    rw [if_neg (bytesToHex_ne_empty h1), hexToBytes_bytesToHex h2]

theorem deserializeCausalEntry_serialize {e : HistoryEntry}
    (h : HintOk e.retrievalHint) :
    MessageSerializer.deserializeCausalEntry (MessageSerializer.serializeCausalEntry e) =
      some e := by
  obtain ⟨mid, hint⟩ := e
  cases hint with
  | none => rfl
  | some bs =>
    obtain ⟨h1, h2⟩ := h bs rfl
    simp only [MessageSerializer.serializeCausalEntry,
      MessageSerializer.deserializeCausalEntry, Option.map_some']
    rw [if_neg (bytesToHex_ne_empty h1), hexToBytes_bytesToHex h2]

theorem deserializeCausalList_map {l : List HistoryEntry}
    (h : ∀ e ∈ l, HintOk e.retrievalHint) :
    MessageSerializer.deserializeCausalList (l.map MessageSerializer.serializeCausalEntry) =
      some l := by
  induction l with
  | nil => rfl
  | cons e rest ih =>
    simp only [List.map_cons]
    unfold MessageSerializer.deserializeCausalList
    rw [deserializeCausalEntry_serialize (h e (by simp)),
      ih (fun x hx => h x (by simp [hx]))]

theorem bytesToHex_eq_empty_iff {bs : List Nat} : bytesToHex bs = "" ↔ bs = [] := by
  cases bs with
  | nil => exact ⟨fun _ => rfl, fun _ => by decide⟩
  | cons b rest =>
    exact ⟨fun h => absurd h (bytesToHex_ne_empty (by simp)), fun h => nomatch h⟩

theorem toHex_eq_none_iff {o : Option (List Nat)} :
    MessageSerializer.toHex o = none ↔ o = none ∨ o = some [] := by
  cases o with
  | none => simp [MessageSerializer.toHex]
  | some bs =>
    cases bs with
    | nil => simp [MessageSerializer.toHex]
    | cons b rest => simp [MessageSerializer.toHex]

theorem toHex_ne_some_empty {o : Option (List Nat)} :
    MessageSerializer.toHex o ≠ some "" := by
  cases o with
  | none => exact fun h => nomatch h
  | some bs =>
    cases bs with
    | nil => exact fun h => nomatch h
    | cons b rest =>
      simp only [MessageSerializer.toHex, List.length_cons, Nat.succ_ne_zero, if_neg]
      intro h
      have : bytesToHex (b :: rest) = "" := by
        injection h
      exact bytesToHex_ne_empty (by simp) this

/-! ### Helper lemmas: index map and key-value store  -/

theorem mapHas_eq_isSome : ∀ (ix : List (String × ContentMessage)) (k : String),
    mapHas ix k = (mapGet ix k).isSome := by
  intro ix k
  induction ix with
  | nil => rfl
  | cons kv rest ih =>
    obtain ⟨k1, v1⟩ := kv
    by_cases h : k1 = k <;> simp [mapHas, mapGet, h, ih]

theorem storeGet_storeRemove : ∀ (s : Store) (k : String),
    storeGet (storeRemove s k) k = none := by
  intro s k
  induction s with
  | nil => rfl
  | cons kv rest ih =>
    obtain ⟨k1, v1⟩ := kv
    by_cases h : k1 = k <;> simp [storeRemove, storeGet, h, ih]

/-! ### Helper lemmas: history merge  -/

theorem mergeItems_size_le (st : MemLocalHistory) (msgs : List ContentMessage) :
    (st.mergeItems msgs).size ≤ st.maxSize := by
  unfold MemLocalHistory.mergeItems MemLocalHistory.size
  by_cases h : (uniqByMessageId (sortByValueOf (st.items ++ msgs)) []).length > st.maxSize
  · simp only [h, if_true, List.length_drop]
    omega
  · simp only [h, if_false]
    omega

/-! ### Claims  -/

/-- C1: the claimed invariant fails on the code.  The sort key is the
locale-compared string `timestamp_messageId`, so after adding messages
with timestamps 9 (id "a") and 10 (id "b"), `getAllMessages` returns them
in the order [timestamp 10, timestamp 9] - the string "10_b" precedes
"9_a" - not ascending by numeric timestamp as the claim (and the source
comment "messages are stored in SDS chronological order") states.  -/
theorem c1_sort_is_lexicographic_not_numeric :
    (MemLocalHistory.addMessages (MemLocalHistory.emptyHistory DEFAULT_MAX_LENGTH)
        [msgTs9, msgTs10]).map MemLocalHistory.getAllMessages =
      .ok [msgTs10, msgTs9] := by
  rfl

/-- C2: the claimed eviction policy fails on the code.  With `maxSize = 1`,
adding the messages with timestamps 9 (id "a") and 10 (id "b") retains the
timestamp-9 message and evicts the timestamp-10 one, because eviction
removes the front of the lexicographically sorted sequence and "10_b"
sorts before "9_a"; the claim (and the source comment "oldest messages are
dropped") requires the retained set to be the largest numeric keys, here
the timestamp-10 message.  -/
theorem c2_eviction_drops_largest_numeric_key :
    (MemLocalHistory.addMessages (MemLocalHistory.emptyHistory 1)
        [msgTs9, msgTs10]).map MemLocalHistory.getAllMessages =
      .ok [msgTs9] := by
  rfl

/-- C3: after every `addMessages` call that returns normally, on any state
(hence after every call of any sequence, whatever the batching),
`size ≤ maxSize` holds: the eviction branch splices the sequence down to
exactly `maxSize`, and otherwise the guard gives the bound directly.  -/
theorem c3_size_le_maxSize (st : MemLocalHistory) (msgs : List ContentMessage)
    (st2 : MemLocalHistory) (hpos : 0 < st.maxSize)
    (h : st.addMessages msgs = .ok st2) : st2.size ≤ st.maxSize := by
  unfold MemLocalHistory.addMessages at h
  by_cases hall : msgs.all isContentMessage
  · rw [if_pos hall] at h
    injection h with h2
    rw [← h2]
    exact mergeItems_size_le st msgs
  · rw [if_neg hall] at h
    exact nomatch h

/-- C3 witness: a concrete call on an empty history with `maxSize = 1` and
two valid messages.  -/
theorem c3_size_le_maxSize_witness :
    0 < (MemLocalHistory.emptyHistory 1).maxSize ∧
    c3state.size ≤ (MemLocalHistory.emptyHistory 1).maxSize :=
  ⟨by decide,
    c3_size_le_maxSize (MemLocalHistory.emptyHistory 1) c3msgs c3state (by decide) rfl⟩

/-- C4 counterexample: a message whose `bloomFilter` is a present
zero-length byte sequence does not round-trip value-equal in every field -
serialization omits the field and deserialization yields an absent, not a
present empty, bloom filter.  -/
theorem c4_empty_bloom_not_roundtripped :
    MessageSerializer.deserializeContentMessage
        (MessageSerializer.serializeContentMessage c4exMsg) ≠ some c4exMsg := by
  decide

/-- C4 amended: for every content message whose present optional binary
fields (`bloomFilter`, `retrievalHint`, each causal entry hint) are
nonempty byte sequences, deserialization of the serialization is
value-equal to the message in every field (absent fields stay absent), and
re-serializing the result yields a record identical to the first
serialization.  A present zero-length optional field deserializes to an
absent one instead (see the counterexample), which is the only deviation
from the original claim.  -/
theorem c4_roundtrip_amended (m : ContentMessage) (ts : Nat) (c : List Nat)
    (hts : m.lamportTimestamp = some ts)
    (hc : m.content = some c) (hcv : ∀ b ∈ c, b < 256)
    (hb : HintOk m.bloomFilter) (hr : HintOk m.retrievalHint)
    (hch : ∀ e ∈ m.causalHistory, HintOk e.retrievalHint) :
    MessageSerializer.deserializeContentMessage
        (MessageSerializer.serializeContentMessage m) = some m ∧
    (MessageSerializer.deserializeContentMessage
        (MessageSerializer.serializeContentMessage m)).map
        MessageSerializer.serializeContentMessage =
      some (MessageSerializer.serializeContentMessage m) := by
  have hmain : MessageSerializer.deserializeContentMessage
      (MessageSerializer.serializeContentMessage m) = some m := by
    simp only [MessageSerializer.serializeContentMessage,
      MessageSerializer.deserializeContentMessage, hc, hts, Option.getD_some, tsToString,
      hexToBytes_bytesToHex hcv, deserializeCausalList_map hch, parseDec_natToDec,
      fromHex_toHex hb, fromHex_toHex hr]
    rw [← hts, ← hc]
  exact ⟨hmain, by rw [hmain]; rfl⟩

/-- C4 witness: a concrete message exercising empty content, a nonempty
bloom filter and retrieval hint, and causal entries with and without a
hint.  -/
theorem c4_roundtrip_amended_witness :
    MessageSerializer.deserializeContentMessage
        (MessageSerializer.serializeContentMessage c4wMsg) = some c4wMsg ∧
    (MessageSerializer.deserializeContentMessage
        (MessageSerializer.serializeContentMessage c4wMsg)).map
        MessageSerializer.serializeContentMessage =
      some (MessageSerializer.serializeContentMessage c4wMsg) :=
  c4_roundtrip_amended c4wMsg 12345 [] rfl rfl (by simp)
    (hintOk_some (by decide) (by decide)) (hintOk_some (by decide) (by decide))
    (by
      intro e he
      simp only [c4wMsg, List.mem_cons, List.not_mem_nil, or_false] at he
      rcases he with rfl | rfl
      · exact hintOk_none
      · exact hintOk_some (by decide) (by decide))

/-- C5 counterexample: a causal-history entry whose `retrievalHint` is a
present zero-length byte sequence is serialized with the `retrievalHint`
field present as the empty string, because the serializer tests JavaScript
truthiness and a present `Uint8Array` is truthy even at length 0.  -/
theorem c5_empty_hint_serialized_as_empty_string :
    (MessageSerializer.serializeContentMessage c5exMsg).causalHistory =
      [{ messageId := "e", retrievalHint := some "" }] := by
  decide

/-- C5 amended: the record omits `bloomFilter` and the top-level
`retrievalHint` exactly when the source value is absent or zero-length and
never stores them as an empty string; a causal entry hint, however, is
omitted exactly when absent, and a present zero-length hint is stored as
the empty string (the only deviation, forced by the counterexample).  -/
theorem c5_optional_field_omission (m : ContentMessage) (e : HistoryEntry) :
    ((MessageSerializer.serializeContentMessage m).bloomFilter = none ↔
      m.bloomFilter = none ∨ m.bloomFilter = some []) ∧
    (MessageSerializer.serializeContentMessage m).bloomFilter ≠ some "" ∧
    ((MessageSerializer.serializeContentMessage m).retrievalHint = none ↔
      m.retrievalHint = none ∨ m.retrievalHint = some []) ∧
    (MessageSerializer.serializeContentMessage m).retrievalHint ≠ some "" ∧
    ((MessageSerializer.serializeContentMessage m).causalHistory =
      m.causalHistory.map MessageSerializer.serializeCausalEntry) ∧
    ((MessageSerializer.serializeCausalEntry e).retrievalHint = none ↔
      e.retrievalHint = none) ∧
    ((MessageSerializer.serializeCausalEntry e).retrievalHint = some "" ↔
      e.retrievalHint = some []) := by
  refine ⟨toHex_eq_none_iff, toHex_ne_some_empty, toHex_eq_none_iff,
    toHex_ne_some_empty, rfl, ?_, ?_⟩
  · simp [MessageSerializer.serializeCausalEntry]
  · simp only [MessageSerializer.serializeCausalEntry]
    cases hh : e.retrievalHint with
    | none => simp
    | some bs =>
      simp only [Option.map_some', Option.some.injEq]
      exact bytesToHex_eq_empty_iff

/-- C5 witness: the amended statement at a concrete message and entry.  -/
theorem c5_optional_field_omission_witness :
    ((MessageSerializer.serializeContentMessage c4exMsg).bloomFilter = none ↔
      c4exMsg.bloomFilter = none ∨ c4exMsg.bloomFilter = some []) ∧
    (MessageSerializer.serializeContentMessage c4exMsg).bloomFilter ≠ some "" ∧
    ((MessageSerializer.serializeContentMessage c4exMsg).retrievalHint = none ↔
      c4exMsg.retrievalHint = none ∨ c4exMsg.retrievalHint = some []) ∧
    (MessageSerializer.serializeContentMessage c4exMsg).retrievalHint ≠ some "" ∧
    ((MessageSerializer.serializeContentMessage c4exMsg).causalHistory =
      c4exMsg.causalHistory.map MessageSerializer.serializeCausalEntry) ∧
    ((MessageSerializer.serializeCausalEntry ⟨"q", some [1, 255]⟩).retrievalHint = none ↔
      (HistoryEntry.mk "q" (some [1, 255])).retrievalHint = none) ∧
    ((MessageSerializer.serializeCausalEntry ⟨"q", some [1, 255]⟩).retrievalHint = some "" ↔
      (HistoryEntry.mk "q" (some [1, 255])).retrievalHint = some []) :=
  c5_optional_field_omission c4exMsg ⟨"q", some [1, 255]⟩

/-- C6: when any message of the batch fails validation (missing timestamp
or content), `addMessages` raises the validation error and returns with
the history state and the storage exactly as they were: the validation
loop precedes every mutation and the persistence write in the source, so
nothing - including the valid messages of the batch - is added.  -/
theorem c6_validation_all_or_nothing (stringify : List StoredContentMessage → String)
    (st : MemLocalHistory) (store : Store) (key : String)
    (msgs : List ContentMessage) (h : ∃ m ∈ msgs, isContentMessage m = false) :
    addMessagesWithStorage stringify st store key msgs =
      (.error MemLocalHistory.validationErrorMessage, st, store) := by
  obtain ⟨m, hm, hfalse⟩ := h
  have hall : ¬(msgs.all isContentMessage = true) := by
    intro hall
    have := List.all_eq_true.mp hall m hm
    rw [hfalse] at this
    exact Bool.noConfusion this
  unfold addMessagesWithStorage
  rw [if_neg hall]

/-- C6 witness: a batch holding one valid and one invalid message against
an empty history and an empty store.  -/
theorem c6_validation_all_or_nothing_witness :
    addMessagesWithStorage c6stringify (MemLocalHistory.emptyHistory 5) c6store "k" c6msgs =
      (.error MemLocalHistory.validationErrorMessage, MemLocalHistory.emptyHistory 5,
        c6store) :=
  c6_validation_all_or_nothing c6stringify (MemLocalHistory.emptyHistory 5) c6store "k"
    c6msgs ⟨c6invalidMsg, by decide, by decide⟩

/-- C7 counterexample: the empty string is a stored value that is not
parseable as a JSON array of records (`JSON.parse` throws on it), yet
`load` returns the empty list while leaving the backend untouched - the
falsy-value check at `browser.ts` line 134 returns before parsing - so the
stored value for the key is not removed, refuting the claim's removal
clause at this input.  -/
theorem c7_empty_string_not_removed :
    PersistentStorage.load c7jparse c7emptyStore c7key = ([], c7emptyStore) ∧
    storeGet c7emptyStore c7key = some "" :=
  ⟨rfl, rfl⟩

/-- C7 amended: when the stored value under the channel key is nonempty
and does not parse as a JSON array of records, `PersistentStorage.load`
returns the empty list and removes the stored value; a `MemLocalHistory`
constructed over that backend has size 0, the key is gone afterwards, and
a second construction (which finds no stored value) again yields size 0.
A stored empty string also loads as the empty list, but is left in place
(see the counterexample), the only deviation from the original claim.  -/
theorem c7_corrupt_data_recovery (jparse : String → Option (List StoredContentMessage))
    (store : Store) (key : String) (maxSize : Nat) (raw : String)
    (hget : storeGet store key = some raw) (hraw : raw ≠ "")
    (hbad : jparse raw = none) :
    PersistentStorage.load jparse store key = ([], storeRemove store key) ∧
    (mkWithStorage jparse maxSize store key).1.size = 0 ∧
    storeGet (mkWithStorage jparse maxSize store key).2 key = none ∧
    (mkWithStorage jparse maxSize (mkWithStorage jparse maxSize store key).2 key).1.size =
      0 := by
  have hload : PersistentStorage.load jparse store key = ([], storeRemove store key) := by
    simp only [PersistentStorage.load, hget]
    rw [if_neg hraw]
    simp only [hbad]
  have hmk : mkWithStorage jparse maxSize store key =
      (MemLocalHistory.emptyHistory maxSize, storeRemove store key) := by
    simp [mkWithStorage, hload, MemLocalHistory.mkMemLocalHistory,
      MemLocalHistory.loadIntoHistory]
  have hload2 : PersistentStorage.load jparse (storeRemove store key) key =
      ([], storeRemove store key) := by
    simp [PersistentStorage.load, storeGet_storeRemove]
  refine ⟨hload, ?_, ?_, ?_⟩
  · rw [hmk]
    rfl
  · rw [hmk]
    exact storeGet_storeRemove store key
  · rw [hmk]
    simp only [mkWithStorage, hload2, MemLocalHistory.mkMemLocalHistory,
      MemLocalHistory.loadIntoHistory]
    rfl

/-- C7 witness: a backend whose value for the channel key is the literal
string "\x7b invalid json \x7d" and a parse function that rejects it.  -/
theorem c7_corrupt_data_recovery_witness :
    PersistentStorage.load c7jparse c7store c7key = ([], storeRemove c7store c7key) ∧
    (mkWithStorage c7jparse 10000 c7store c7key).1.size = 0 ∧
    storeGet (mkWithStorage c7jparse 10000 c7store c7key).2 c7key = none ∧
    (mkWithStorage c7jparse 10000 (mkWithStorage c7jparse 10000 c7store c7key).2
        c7key).1.size = 0 :=
  c7_corrupt_data_recovery c7jparse c7store c7key 10000 "\x7b invalid json \x7d"
    (by decide) (by decide) rfl

/-- C8 counterexample: on a history holding one message,
`getRecentMessages(0)` returns the whole history, not the empty sequence
the claim states: `items.slice(-0)` is `items.slice(0)`.  -/
theorem c8_count_zero_returns_whole_history :
    MemLocalHistory.getRecentMessages c8history 0 = [sampleMsg "r" 3] := by
  decide

/-- C8 amended: `getRecentMessages(count)` is a suffix of the retained
sequence (hence the entries greatest in the maintained order, in that
order); for `count ≥ 1` its length is `min count size`, and whenever
`count ≥ size` it is the whole history; for `count = 0` it is the whole
history as well (not the empty sequence), the only deviation from the
original claim.  -/
theorem c8_getRecentMessages_suffix (st : MemLocalHistory) (count : Nat) :
    (MemLocalHistory.getRecentMessages st count).IsSuffix st.items ∧
    (MemLocalHistory.getRecentMessages st count).length =
      (if count = 0 then st.items.length else min count st.items.length) ∧
    (st.items.length ≤ count → MemLocalHistory.getRecentMessages st count = st.items) := by
  by_cases h : count = 0
  · simp only [MemLocalHistory.getRecentMessages, if_pos h]
    exact ⟨List.suffix_refl _, by simp [h], fun _ => trivial⟩
  · simp only [MemLocalHistory.getRecentMessages, if_neg h]
    refine ⟨List.drop_suffix _ _, ?_, fun hle => ?_⟩
    · rw [List.length_drop]
      omega
    · have h0 : st.items.length - count = 0 := by omega
      rw [h0, List.drop_zero]

/-- C8 witness: the amended statement at a concrete history and count.  -/
theorem c8_getRecentMessages_suffix_witness :
    (MemLocalHistory.getRecentMessages c8history 2).IsSuffix c8history.items ∧
    (MemLocalHistory.getRecentMessages c8history 2).length =
      (if 2 = 0 then c8history.items.length else min 2 c8history.items.length) ∧
    (c8history.items.length ≤ 2 →
      MemLocalHistory.getRecentMessages c8history 2 = c8history.items) :=
  c8_getRecentMessages_suffix c8history 2

/-- C9: `findMissingDependencies` returns exactly the filter of the input
entries by absence from the index, which coincides with `getMessage`
returning nothing; being a filter of its input it preserves input order
and multiplicity (it is a sublist), and the function is a pure query on
the state.  -/
theorem c9_findMissingDependencies_spec (st : MemLocalHistory)
    (entries : List HistoryEntry) :
    st.findMissingDependencies entries =
      entries.filter (fun e => (st.getMessage e.messageId).isNone) ∧
    List.Sublist (st.findMissingDependencies entries) entries := by
  constructor
  · unfold MemLocalHistory.findMissingDependencies MemLocalHistory.getMessage
    apply List.filter_congr
    intro e _
    rw [mapHas_eq_isSome]
    cases mapGet st.messageIndex e.messageId <;> rfl
  · unfold MemLocalHistory.findMissingDependencies
    exact List.filter_sublist entries

/-- C9 witness: the statement at a concrete history holding only "m2" and
the entry list ["m1", "m2"]; the result is the "m1" entry alone.  -/
theorem c9_findMissingDependencies_witness :
    (c9history.findMissingDependencies c9entries =
      c9entries.filter (fun e => (c9history.getMessage e.messageId).isNone) ∧
    List.Sublist (c9history.findMissingDependencies c9entries) c9entries) ∧
    c9history.findMissingDependencies c9entries = [⟨"m1", none⟩] :=
  ⟨c9_findMissingDependencies_spec c9history c9entries, by decide⟩

/-- C10: whenever construction-time `load()` yields a nonempty message
list, the constructor adopts it verbatim as the retained sequence and only
rebuilds the index: no re-sorting, deduplication or eviction happens
during restore.  -/
theorem c10_restore_adopts_verbatim (maxSize : Nat) (loaded : List ContentMessage)
    (h : loaded ≠ []) :
    (MemLocalHistory.mkMemLocalHistory maxSize loaded).items = loaded ∧
    (MemLocalHistory.mkMemLocalHistory maxSize loaded).messageIndex =
      MemLocalHistory.rebuildIndex loaded ∧
    (MemLocalHistory.mkMemLocalHistory maxSize loaded).maxSize = maxSize := by
  have hpos : loaded.length > 0 := List.length_pos.mpr h
  unfold MemLocalHistory.mkMemLocalHistory MemLocalHistory.loadIntoHistory
  rw [if_pos hpos]
  exact ⟨rfl, rfl, rfl⟩

/-- C10 witness: a restored list that is unsorted, has a duplicate id and
exceeds `maxSize = 1`; after construction the state holds it verbatim with
size 3 above the bound.  -/
theorem c10_restore_adopts_verbatim_witness :
    ((MemLocalHistory.mkMemLocalHistory 1 c10loaded).items = c10loaded ∧
    (MemLocalHistory.mkMemLocalHistory 1 c10loaded).messageIndex =
      MemLocalHistory.rebuildIndex c10loaded ∧
    (MemLocalHistory.mkMemLocalHistory 1 c10loaded).maxSize = 1) ∧
    (MemLocalHistory.mkMemLocalHistory 1 c10loaded).size = 3 ∧
    ¬(MemLocalHistory.mkMemLocalHistory 1 c10loaded).size ≤
      (MemLocalHistory.mkMemLocalHistory 1 c10loaded).maxSize :=
  ⟨c10_restore_adopts_verbatim 1 c10loaded (by decide), by decide, by decide⟩

end Sds
